import Mathlib

set_option maxHeartbeats 1000000

/-!
Verification of the threat-intelligence engine core (feature extraction,
rule engine, entity graph, ML scorer, ingestion) against its specification.

The JavaScript sources are shallowly embedded: JS numbers are modelled as
rationals (all arithmetic appearing in the embedded code is exact), except
the Shannon-entropy values which live in the reals; timestamps are epoch
milliseconds as rationals; nullable database columns are Option; fallible
storage access is passed in as an Except value, mirroring the code whose
try/catch converts a rejected promise into a null result.
-/

/-- One stored event row (table events).  The optional columns port,
geo_location and payload_size model nullable database fields.  The ISO
timestamp string is modelled by its epoch-millisecond value, which is what
the code extracts with new Date(...).getTime(). -/
structure Event where
  event_type : String
  timestamp : ℚ
  frequency : ℚ
  port : Option ℚ
  geo_location : Option String
  payload_size : Option ℚ
deriving Repr, DecidableEq

/-- One stored indicator row (table indicators).  The metadata JSON string is
modelled by its parsed reputation field: none stands for metadata without a
usable reputation entry (absent, unparseable, or missing key). -/
structure Indicator where
  type : String
  value : String
  confidence : ℚ
  reputation : Option ℚ
deriving Repr, DecidableEq

/-- JavaScript truthiness of an optional numeric column: null/undefined and 0
are falsy, every other number is truthy. -/
def truthyNum : Option ℚ → Bool
  | none => false
  | some q => q != 0

/-- JavaScript truthiness of an optional string column: null/undefined and the
empty string are falsy. -/
def truthyStr : Option String → Bool
  | none => false
  | some s => s != ""

/-- Distinct elements of a list in order of first occurrence; this is the key
order of a JavaScript object populated by iteration, and the iteration order
of a JavaScript Set. -/
def dedupFirst {α : Type} [DecidableEq α] : List α → List α
  | [] => []
  | a :: rest => a :: dedupFirst (rest.filter (fun b => b ≠ a))
termination_by l => l.length
decreasing_by
  simp only [List.length_cons]
  exact Nat.lt_succ_of_le (List.length_filter_le _ _)

/-- Object.values of a count table built by one pass over a list: for each
distinct element in first-occurrence order, its number of occurrences. -/
def countsOf {α : Type} [DecidableEq α] (l : List α) : List ℚ :=
  (dedupFirst l).map (fun a => (l.count a : ℚ))

/-- FeatureExtractionEngine.calculateEntropy: Shannon entropy (base 2) of a
list of counts; returns 0 when the total is 0. -/
noncomputable def calculateEntropy (values : List ℚ) : ℝ :=
  let total := values.sum
  if total = 0 then 0
  else
    values.foldl (fun entropy count =>
      let p := count / total
      if 0 < p then entropy - (p : ℝ) * Real.logb 2 (p : ℝ) else entropy) 0

/-- FeatureExtractionEngine.calculateEventFrequency: the event count. -/
def calculateEventFrequency (events : List Event) : ℚ :=
  events.length

/-- FeatureExtractionEngine.calculateTimeBetweenEvents: mean gap in seconds
between consecutive sorted timestamps; 0 for fewer than two events.  The
JavaScript default sort is modelled as a numeric sort of the epoch values. -/
def calculateTimeBetweenEvents (events : List Event) : ℚ :=
  if events.length < 2 then 0
  else
    let times := List.insertionSort (· ≤ ·) (events.map (fun e => e.timestamp))
    let differences := List.zipWith (fun a b => (b - a) / 1000) times times.tail
    differences.sum / differences.length

/-- FeatureExtractionEngine.calculateEventRate: events inside the trailing
window of windowSeconds, rescaled to a per-minute rate; now is the clock
reading Date.now() at the time of the call. -/
def calculateEventRate (events : List Event) (windowSeconds : ℚ) (now : ℚ) : ℚ :=
  if events.length = 0 then 0
  else
    let recentEvents := events.filter (fun e => now - e.timestamp < windowSeconds * 1000)
    (recentEvents.length : ℚ) / windowSeconds * 60

/-- FeatureExtractionEngine.countUniqueEventTypes: size of the set of event
types. -/
def countUniqueEventTypes (events : List Event) : ℚ :=
  (dedupFirst (events.map (fun e => e.event_type))).length

/-- FeatureExtractionEngine.calculateEventTypeDiversity: Shannon entropy of
the event-type frequency distribution; 0 for an empty event list. -/
noncomputable def calculateEventTypeDiversity (events : List Event) : ℝ :=
  if events.length = 0 then 0
  else calculateEntropy (countsOf (events.map (fun e => e.event_type)))

/-- FeatureExtractionEngine.calculatePortEntropy: Shannon entropy over the
multiset of ports of events with a (truthy) port; 0 when there are none. -/
noncomputable def calculatePortEntropy (events : List Event) : ℝ :=
  let ports := (events.filter (fun e => truthyNum e.port)).map (fun e => e.port.getD 0)
  if ports.length = 0 then 0
  else calculateEntropy (countsOf ports)

/-- List of high-risk country codes hard-coded in calculateGeoRiskScore. -/
def highRiskCountries : List String := ["RU", "CN", "KP", "IR"]

/-- FeatureExtractionEngine.calculateGeoRiskScore: percentage of geo-tagged
events whose location is in the high-risk set. -/
def calculateGeoRiskScore (events : List Event) : ℚ :=
  let geoEvents := events.filter (fun e => truthyStr e.geo_location)
  if geoEvents.length = 0 then 0
  else
    let highRiskCount :=
      (geoEvents.filter (fun e => highRiskCountries.contains (e.geo_location.getD ""))).length
    ((highRiskCount : ℚ) / geoEvents.length) * 100

/-- FeatureExtractionEngine.countUniqueGeolocations. -/
def countUniqueGeolocations (events : List Event) : ℚ :=
  (dedupFirst ((events.filter (fun e => truthyStr e.geo_location)).map
    (fun e => e.geo_location.getD ""))).length

/-- FeatureExtractionEngine.countUniquePorts. -/
def countUniquePorts (events : List Event) : ℚ :=
  (dedupFirst ((events.filter (fun e => truthyNum e.port)).map
    (fun e => e.port.getD 0))).length

/-- FeatureExtractionEngine.calculateAvgPayloadSize: mean payload size over
events carrying a (truthy) payload size; 0 when there are none. -/
def calculateAvgPayloadSize (events : List Event) : ℚ :=
  let payloads := (events.filter (fun e => truthyNum e.payload_size)).map
    (fun e => e.payload_size.getD 0)
  if payloads.length = 0 then 0
  else payloads.sum / payloads.length

/-- FeatureExtractionEngine.calculatePayloadVariance: population variance of
payload sizes; 0 for fewer than two carrying events. -/
def calculatePayloadVariance (events : List Event) : ℚ :=
  let payloads := (events.filter (fun e => truthyNum e.payload_size)).map
    (fun e => e.payload_size.getD 0)
  if payloads.length < 2 then 0
  else
    let mean := calculateAvgPayloadSize events
    let squaredDiffs := payloads.map (fun p => (p - mean) ^ 2)
    squaredDiffs.sum / payloads.length

/-- FeatureExtractionEngine.calculateZScore with the fixed default baseline
(mean 50, standard deviation 20). -/
def calculateZScore (value : ℚ) : ℚ :=
  (value - 50) / 20

/-- Static denylist hard-coded in calculateBlacklistScore. -/
def blacklistedValues : List String := ["192.168.1.100", "malicious-c2.com", "10.0.0.50"]

/-- FeatureExtractionEngine.calculateBlacklistScore: 90 for denylisted values,
else 100 minus a truthy metadata reputation, else 0. -/
def calculateBlacklistScore (indicator : Indicator) : ℚ :=
  if blacklistedValues.contains indicator.value then 90
  else if truthyNum indicator.reputation then 100 - indicator.reputation.getD 0
  else 0

/-- FeatureExtractionEngine.calculateDNSEntropy: character-level Shannon
entropy of the indicator value, only for domain indicators with at least one
dns_query event; 0 otherwise. -/
noncomputable def calculateDNSEntropy (indicator : Indicator) (events : List Event) : ℝ :=
  if indicator.type ≠ "domain" then 0
  else
    let dnsEvents := events.filter (fun e => e.event_type == "dns_query")
    if dnsEvents.length = 0 then 0
    else calculateEntropy (countsOf indicator.value.toList)

/-- The fixed-schema feature record built by extractFeatures. -/
structure Features where
  event_frequency : ℚ
  time_between_events : ℚ
  event_rate_per_minute : ℚ
  event_rate_per_hour : ℚ
  unique_event_types : ℚ
  event_type_diversity : ℝ
  port_scan_entropy : ℝ
  geo_risk_score : ℚ
  unique_geolocations : ℚ
  unique_ports : ℚ
  avg_payload_size : ℚ
  payload_variance : ℚ
  event_count_zscore : ℚ
  confidence_score : ℚ
  blacklist_score : ℚ
  dns_entropy : ℝ

/-- FeatureExtractionEngine.extractFeatures.  The two storage reads are passed
in as Except values; the surrounding try/catch turns a rejected storage call
into a null result (none), and an absent indicator row (ok none) also yields
none because the property accesses on undefined throw inside the try block.
now is the clock reading used by the event-rate features. -/
noncomputable def extractFeatures (now : ℚ)
    (eventsResult : Except String (List Event))
    (indicatorResult : Except String (Option Indicator)) : Option Features :=
  match eventsResult, indicatorResult with
  | Except.ok events, Except.ok (some indicator) =>
      some {
        event_frequency := calculateEventFrequency events
        time_between_events := calculateTimeBetweenEvents events
        event_rate_per_minute := calculateEventRate events 60 now
        event_rate_per_hour := calculateEventRate events 3600 now
        unique_event_types := countUniqueEventTypes events
        event_type_diversity := calculateEventTypeDiversity events
        port_scan_entropy := calculatePortEntropy events
        geo_risk_score := calculateGeoRiskScore events
        unique_geolocations := countUniqueGeolocations events
        unique_ports := countUniquePorts events
        avg_payload_size := calculateAvgPayloadSize events
        payload_variance := calculatePayloadVariance events
        event_count_zscore := calculateZScore events.length
        confidence_score := indicator.confidence
        blacklist_score := calculateBlacklistScore indicator
        dns_entropy := calculateDNSEntropy indicator events }
  | _, _ => none

/-- Unfolding one step of the entropy fold over a replicated count list: every
step subtracts the same p·log2 p term. -/
lemma entropy_foldl_replicate (c total : ℚ) (n : ℕ) (a : ℝ) :
    List.foldl (fun entropy count =>
      let p := count / total
      if 0 < p then entropy - (p : ℝ) * Real.logb 2 (p : ℝ) else entropy) a
      (List.replicate n c) =
    a + n * (if 0 < c / total then -((c / total : ℚ) : ℝ) * Real.logb 2 ((c / total : ℚ) : ℝ)
             else 0) := by
  induction n generalizing a with
  | zero => simp
  | succ m ih =>
      rw [List.replicate_succ, List.foldl_cons, ih]
      push_cast
      split <;> ring

/-- A uniform count list: k copies of the positive count c. -/
lemma calculateEntropy_replicate (k : ℕ) (c : ℚ) (hk : 0 < k) (hc : 0 < c) :
    calculateEntropy (List.replicate k c) = Real.logb 2 k := by
  have hk0 : (k : ℚ) ≠ 0 := Nat.cast_ne_zero.mpr hk.ne'
  have hc0 : c ≠ 0 := hc.ne'
  have hsum : (List.replicate k c).sum = k * c := by
    simp [List.sum_replicate, nsmul_eq_mul]
  have hp : c / (List.replicate k c).sum = 1 / (k : ℚ) := by
    rw [hsum]
    field_simp
    ring
  have htot : (List.replicate k c).sum ≠ 0 := by
    rw [hsum]; positivity
  simp only [calculateEntropy]
  rw [if_neg htot, entropy_foldl_replicate, hp]
  have hpos : 0 < 1 / (k : ℚ) := by positivity
  rw [if_pos hpos]
  have hcast : ((1 / (k : ℚ) : ℚ) : ℝ) = ((k : ℝ))⁻¹ := by push_cast; ring
  rw [hcast, Real.logb_inv]
  have hkR : (k : ℝ) ≠ 0 := Nat.cast_ne_zero.mpr hk.ne'
  field_simp

/-- C4.  The Shannon entropy helper used for event-type diversity and port
entropy: a uniform distribution of k positive counts has entropy log2 k, a
single-count distribution has entropy 0, and the empty (degenerate)
distribution has entropy 0. -/
theorem entropy_uniform_single_empty :
    (∀ (k : ℕ) (c : ℚ), 0 < k → 0 < c →
        calculateEntropy (List.replicate k c) = Real.logb 2 k) ∧
    (∀ c : ℚ, 0 < c → calculateEntropy [c] = 0) ∧
    calculateEntropy [] = 0 := by
  refine ⟨fun k c hk hc => calculateEntropy_replicate k c hk hc, fun c hc => ?_, ?_⟩
  · have h1 : calculateEntropy [c] = calculateEntropy (List.replicate 1 c) := by
      simp [List.replicate]
    rw [h1, calculateEntropy_replicate 1 c Nat.one_pos hc]
    simp
  · simp [calculateEntropy]

/-- Witness for C4: a uniform two-symbol distribution has entropy log2 2 and a
one-symbol distribution has entropy 0. -/
theorem entropy_uniform_single_empty_witness :
    calculateEntropy (List.replicate 2 (1 : ℚ)) = Real.logb 2 2 ∧
    calculateEntropy [(1 : ℚ)] = 0 :=
  ⟨entropy_uniform_single_empty.1 2 1 (by norm_num) (by norm_num),
   entropy_uniform_single_empty.2.1 1 (by norm_num)⟩

/-- Concrete indicator used to exercise the zero-event path of
extractFeatures. -/
def c3Indicator : Indicator := ⟨"IP", "8.8.8.8", 1 / 2, none⟩

/-- Counterexample for C3.  For an existing indicator with zero events,
extractFeatures does not return a distinguishable no-data result: it returns a
full feature record (the only distinguishable non-record result of the
function is the null produced by its catch block). -/
theorem extractFeatures_no_nodata_counterexample :
    ¬ (extractFeatures 0 (Except.ok []) (Except.ok (some c3Indicator)) = none) := by
  simp [extractFeatures]

/-- C3 as amended.  When the indicator row exists and has zero events,
extractFeatures returns a populated feature record whose event-derived
features are all zero (z-score -5/2, confidence and blacklist score taken
from the indicator), not a distinguishable no-data result; and a failed
storage read (of either the events or the indicator), as well as a missing
indicator row, is caught and surfaced as the null result none -- the error is
not propagated, but none is distinguishable from every feature record. -/
theorem extractFeatures_zero_events_and_errors :
    (∀ (now : ℚ) (indicator : Indicator),
      extractFeatures now (Except.ok []) (Except.ok (some indicator)) =
        some { event_frequency := 0, time_between_events := 0,
               event_rate_per_minute := 0, event_rate_per_hour := 0,
               unique_event_types := 0, event_type_diversity := 0,
               port_scan_entropy := 0, geo_risk_score := 0,
               unique_geolocations := 0, unique_ports := 0,
               avg_payload_size := 0, payload_variance := 0,
               event_count_zscore := -5 / 2,
               confidence_score := indicator.confidence,
               blacklist_score := calculateBlacklistScore indicator,
               dns_entropy := 0 }) ∧
    (∀ (now : ℚ) (err : String) (indicatorResult : Except String (Option Indicator)),
      extractFeatures now (Except.error err) indicatorResult = none) ∧
    (∀ (now : ℚ) (events : List Event) (err : String),
      extractFeatures now (Except.ok events) (Except.error err) = none) ∧
    (∀ (now : ℚ) (events : List Event),
      extractFeatures now (Except.ok events) (Except.ok none) = none) := by
  refine ⟨fun now indicator => ?_, fun now err ir => ?_, fun now events err => ?_,
    fun now events => ?_⟩
  · simp only [extractFeatures, Option.some.injEq]
    have hdns : calculateDNSEntropy indicator [] = 0 := by
      unfold calculateDNSEntropy
      split
      · rfl
      · simp
    refine Features.mk.injEq _ _ _ _ _ _ _ _ _ _ _ _ _ _ _ _ _ _ _ _ _ _ _ _ _ _ _ _ _ _ _ _
      |>.mpr ?_
    refine ⟨?_, ?_, ?_, ?_, ?_, ?_, ?_, ?_, ?_, ?_, ?_, ?_, ?_, rfl, rfl, ?_⟩
    · simp [calculateEventFrequency]
    · simp [calculateTimeBetweenEvents]
    · simp [calculateEventRate]
    · simp [calculateEventRate]
    · simp [countUniqueEventTypes, dedupFirst]
    · simp [calculateEventTypeDiversity]
    · simp [calculatePortEntropy]
    · simp [calculateGeoRiskScore]
    · simp [countUniqueGeolocations, dedupFirst]
    · simp [countUniquePorts, dedupFirst]
    · simp [calculateAvgPayloadSize]
    · simp [calculatePayloadVariance]
    · simp [calculateZScore]
      norm_num
    · exact hdns
  · rfl
  · rfl
  · rfl

/-- One registered rule of the RuleEngine registry.  The point value is the
natural-number score carried by every rule the code constructs.  The
predicate returns Option Bool: none models a predicate that throws, which the
evaluation loop catches and treats as non-matching. -/
structure Rule where
  id : String
  name : String
  severity : String
  score : ℕ
  condition : Features → List Event → Option Bool

/-- One entry of the matchedRules list returned by evaluateRules. -/
structure MatchedRule where
  id : String
  name : String
  severity : String
  score : ℕ
deriving Repr, DecidableEq

/-- True exactly when the predicate ran without throwing and returned true. -/
def ruleMatches (rule : Rule) (features : Features) (events : List Event) : Bool :=
  match rule.condition features events with
  | some true => true
  | _ => false

/-- The matchedRules entry pushed for a triggered rule. -/
def toMatchedRule (rule : Rule) : MatchedRule :=
  ⟨rule.id, rule.name, rule.severity, rule.score⟩

/-- The explanation string pushed for a triggered rule. -/
def explainRule (rule : Rule) : String :=
  rule.name ++ " (" ++ rule.severity ++ ", +" ++ toString rule.score ++ ")"

/-- The record returned by RuleEngine.evaluateRules.  The early-return object
of the code carries no ruleCount field; it is modelled as 0. -/
structure RuleResult where
  score : ℕ
  matchedRules : List MatchedRule
  explanation : List String
  ruleCount : ℕ
deriving Repr, DecidableEq

/-- The evaluation loop of RuleEngine.evaluateRules over already-fetched
features and events: every registered predicate runs against the same pair,
the point values of the triggered rules are summed, and the sum is clamped to
at most 100 (Math.min(totalScore, 100)). -/
def evaluateRulesCore (rules : List Rule) (features : Features) (events : List Event) :
    RuleResult :=
  let folded := rules.foldl (fun acc rule =>
    if ruleMatches rule features events then
      (acc.1 + rule.score, acc.2.1 ++ [toMatchedRule rule], acc.2.2 ++ [explainRule rule])
    else acc) ((0 : ℕ), ([] : List MatchedRule), ([] : List String))
  { score := min folded.1 100
    matchedRules := folded.2.1
    explanation := folded.2.2
    ruleCount := folded.2.1.length }

/-- RuleEngine.evaluateRules: the feature-extraction result is passed in; a
null feature record short-circuits to the zero result. -/
def evaluateRules (rules : List Rule) (featuresResult : Option Features)
    (events : List Event) : RuleResult :=
  match featuresResult with
  | none => ⟨0, [], [], 0⟩
  | some features => evaluateRulesCore rules features events

/-- RuleEngine.addRule: rejects (throws on) a rule with a falsy id or name;
every other rule is appended to the registry.  A predicate is always present
in this typed embedding, so only the id and name checks remain of the
validity test. -/
def addRule (rules : List Rule) (rule : Rule) : Except String (List Rule) :=
  if rule.id = "" || rule.name = "" then
    Except.error "Invalid rule: must have id, name, and condition"
  else Except.ok (rules ++ [rule])

/-- RuleEngine.removeRule: removes the first rule with the given id and
reports whether one was found. -/
def removeRule (rules : List Rule) (ruleId : String) : Bool × List Rule :=
  match rules.findIdx? (fun r => r.id == ruleId) with
  | some index => (true, rules.eraseIdx index)
  | none => (false, rules)

/-- Unfolding of the evaluation fold: it sums the scores of the triggered
rules and appends their matchedRules/explanation entries in registry order. -/
lemma evaluateRules_foldl (features : Features) (events : List Event) :
    ∀ (rules : List Rule) (a : ℕ) (ms : List MatchedRule) (es : List String),
      rules.foldl (fun acc rule =>
        if ruleMatches rule features events then
          (acc.1 + rule.score, acc.2.1 ++ [toMatchedRule rule], acc.2.2 ++ [explainRule rule])
        else acc) (a, ms, es) =
      (a + ((rules.filter (fun rule => ruleMatches rule features events)).map
              (fun rule => rule.score)).sum,
       ms ++ (rules.filter (fun rule => ruleMatches rule features events)).map toMatchedRule,
       es ++ (rules.filter (fun rule => ruleMatches rule features events)).map explainRule) := by
  intro rules
  induction rules with
  | nil => simp
  | cons rule rest ih =>
      intro a ms es
      by_cases h : ruleMatches rule features events
      · simp only [List.foldl_cons, List.filter_cons, h, if_pos, List.map_cons, List.sum_cons,
          ite_true]
        rw [ih]
        simp [List.append_assoc]
        ring
      · simp only [List.foldl_cons, List.filter_cons, h, List.map_cons, ite_false,
          Bool.false_eq_true]
        rw [ih]

/-- C1.  Rule evaluation over any fixed registry: the returned score is the
sum of the point values of the rules whose predicates return true, clamped to
100 (hence within [0,100] -- scores are naturals), the triggered rules come
back in registration order, and evaluation is a pure function, so running it
twice on the same input definitionally yields the same result. -/
theorem evaluateRules_score_and_order (rules : List Rule) (features : Features)
    (events : List Event) :
    (evaluateRulesCore rules features events).score =
      min ((rules.filter (fun rule => ruleMatches rule features events)).map
            (fun rule => rule.score)).sum 100 ∧
    (evaluateRulesCore rules features events).score ≤ 100 ∧
    (evaluateRulesCore rules features events).matchedRules =
      (rules.filter (fun rule => ruleMatches rule features events)).map toMatchedRule ∧
    evaluateRulesCore rules features events = evaluateRulesCore rules features events := by
  have h := evaluateRules_foldl features events rules 0 [] []
  refine ⟨?_, ?_, ?_, rfl⟩
  · simp [evaluateRulesCore, h]
  · simp [evaluateRulesCore, h]
  · simp [evaluateRulesCore, h]

/-- Rules used by the duplicate-identifier counterexample. -/
def dupRuleA : Rule := ⟨"dup_rule", "Rule A", "low", 10, fun _ _ => some false⟩

/-- Second rule carrying the same identifier as dupRuleA. -/
def dupRuleB : Rule := ⟨"dup_rule", "Rule B", "low", 20, fun _ _ => some false⟩

/-- Counterexample for C9.  Adding a rule whose identifier duplicates an
already-registered one is not rejected: addRule appends it, and the registry
then holds two rules with the same identifier. -/
theorem addRule_duplicate_counterexample :
    addRule [dupRuleA] dupRuleB = Except.ok [dupRuleA, dupRuleB] ∧
    ([dupRuleA, dupRuleB].countP (fun r => r.id == "dup_rule")) = 2 :=
  ⟨rfl, rfl⟩

/-- C9 as amended.  addRule validates only that the rule has a (truthy) id
and name -- a duplicate identifier is accepted and appended, so the registry
can hold two rules with the same identifier -- while removeRule removes the
first rule with the given identifier at runtime and reports whether one
existed. -/
theorem addRule_validation_and_removeRule (rules : List Rule) (rule : Rule)
    (ruleId : String) :
    (rule.id ≠ "" → rule.name ≠ "" → addRule rules rule = Except.ok (rules ++ [rule])) ∧
    (rule.id = "" ∨ rule.name = "" →
      addRule rules rule = Except.error "Invalid rule: must have id, name, and condition") ∧
    (∀ index, rules.findIdx? (fun r => r.id == ruleId) = some index →
      removeRule rules ruleId = (true, rules.eraseIdx index)) ∧
    (rules.findIdx? (fun r => r.id == ruleId) = none →
      removeRule rules ruleId = (false, rules)) := by
  refine ⟨fun hid hname => ?_, fun h => ?_, fun index h => ?_, fun h => ?_⟩
  · simp [addRule, hid, hname]
  · rcases h with h | h <;> simp [addRule, h]
  · simp [removeRule, h]
  · simp [removeRule, h]

/-- Witness for C9: a fresh-identifier rule is appended to the singleton
registry, and removing dupRuleA by identifier works at runtime. -/
theorem addRule_validation_and_removeRule_witness :
    addRule [dupRuleA] ⟨"fresh_rule", "Rule C", "low", 5, fun _ _ => some false⟩ =
      Except.ok [dupRuleA, ⟨"fresh_rule", "Rule C", "low", 5, fun _ _ => some false⟩] ∧
    removeRule [dupRuleA] "dup_rule" = (true, []) :=
  ⟨(addRule_validation_and_removeRule [dupRuleA]
      ⟨"fresh_rule", "Rule C", "low", 5, fun _ _ => some false⟩ "x").1
      (by decide) (by decide),
   by
    have h := (addRule_validation_and_removeRule [dupRuleA] dupRuleA "dup_rule").2.2.1 0 rfl
    simpa using h⟩

/-- One row of the graph_nodes table. -/
structure GNode where
  id : String
  entity_type : String
  entity_value : String
deriving Repr, DecidableEq

/-- GraphEngine.addNode over the graph_nodes table: looks up the first row
with the given (entity_value, entity_type) pair and returns its id; otherwise
inserts a fresh row under the pre-generated uuid and returns that.  The table
is the list of rows in insertion order; freshId is the uuid generated at the
top of the call. -/
def addNode (table : List GNode) (value type freshId : String) : String × List GNode :=
  match table.find? (fun n => n.entity_value == value && n.entity_type == type) with
  | some row => (row.id, table)
  | none => (freshId, table ++ [⟨freshId, type, value⟩])

/-- C7.  Node upsert is idempotent: a second addNode with the same
(entity_type, entity_value) pair returns the identifier produced by the first
call and leaves the table unchanged, and a first call on a table without the
pair adds exactly one matching row, so re-running a graph update with the
same event never creates two nodes for one (type, value) pair. -/
theorem addNode_idempotent (table : List GNode) (value type id1 id2 : String) :
    addNode (addNode table value type id1).2 value type id2 =
      ((addNode table value type id1).1, (addNode table value type id1).2) ∧
    (table.countP (fun n => n.entity_value == value && n.entity_type == type) = 0 →
      (addNode table value type id1).2.countP
        (fun n => n.entity_value == value && n.entity_type == type) = 1) := by
  constructor
  · unfold addNode
    cases hfind : table.find? (fun n => n.entity_value == value && n.entity_type == type) with
    | some row => simp [hfind]
    | none =>
        simp only [hfind]
        rw [List.find?_append, hfind]
        simp
  · intro hcount
    unfold addNode
    cases hfind : table.find? (fun n => n.entity_value == value && n.entity_type == type) with
    | some row =>
        exfalso
        have hmem := List.mem_of_find?_eq_some hfind
        have hp := List.find?_some hfind
        have : 0 < table.countP (fun n => n.entity_value == value && n.entity_type == type) :=
          List.countP_pos_iff.mpr ⟨row, hmem, hp⟩
        omega
    | none =>
        simp [List.countP_append, hcount]

/-- The normalized event record consumed by IngestionService.storeIndicator;
the metadata map is modelled by its optional confidence entry together with
its JSON serialization. -/
structure NormalizedEvent where
  indicator_type : String
  indicator_value : String
  source : String
  metadata_confidence : Option ℚ
  metadata_json : String
deriving Repr, DecidableEq

/-- One row of the indicators table. -/
structure IndicatorRow where
  id : String
  type : String
  value : String
  source : String
  confidence : ℚ
  first_seen : String
  last_seen : String
  metadata : String
deriving Repr, DecidableEq

/-- The confidence value the code sends to the database:
normalizedEvent.metadata?.confidence || 0.5, so an absent or falsy (zero)
confidence becomes 0.5. -/
def incomingConfidence (e : NormalizedEvent) : ℚ :=
  match e.metadata_confidence with
  | some c => if c ≠ 0 then c else 1 / 2
  | none => 1 / 2

/-- IngestionService.storeIndicator over the indicators table: the first row
matching (value, type) is updated in place -- last_seen := now, confidence :=
MAX(confidence, incoming), metadata := serialized metadata -- and its id
returned; with no match, a fresh row is inserted under the pre-generated
uuid.  The SQL UPDATE targets WHERE id = row.id, modelled as a map over the
table. -/
def storeIndicator (table : List IndicatorRow) (e : NormalizedEvent)
    (freshId now : String) : String × List IndicatorRow :=
  match table.find? (fun r => r.value == e.indicator_value && r.type == e.indicator_type) with
  | some row =>
      (row.id, table.map (fun r =>
        if r.id == row.id then
          { r with last_seen := now,
                   confidence := max r.confidence (incomingConfidence e),
                   metadata := e.metadata_json }
        else r))
  | none =>
      (freshId, table ++ [⟨freshId, e.indicator_type, e.indicator_value, e.source,
        incomingConfidence e, now, now, e.metadata_json⟩])

/-- C8.  Re-observation never decreases stored confidence: storeIndicator
preserves the identifiers of all existing rows (appending at most one new
row, never deleting), every surviving row's confidence is at least its old
confidence, and the matched row's new confidence is exactly the max-merge of
its old confidence with the incoming value. -/
theorem storeIndicator_confidence_monotone (table : List IndicatorRow)
    (e : NormalizedEvent) (freshId now : String) :
    ((storeIndicator table e freshId now).2.map (fun r => r.id) =
        table.map (fun r => r.id) ∨
      (storeIndicator table e freshId now).2.map (fun r => r.id) =
        table.map (fun r => r.id) ++ [freshId]) ∧
    (∀ r ∈ table, ∃ r2 ∈ (storeIndicator table e freshId now).2,
      r2.id = r.id ∧ r.confidence ≤ r2.confidence) ∧
    (∀ row, table.find? (fun r => r.value == e.indicator_value &&
        r.type == e.indicator_type) = some row →
      ∃ r2 ∈ (storeIndicator table e freshId now).2,
        r2.id = row.id ∧ r2.confidence = max row.confidence (incomingConfidence e)) := by
  unfold storeIndicator
  cases hfind : table.find? (fun r => r.value == e.indicator_value &&
      r.type == e.indicator_type) with
  | some row =>
      simp only [hfind]
      refine ⟨Or.inl ?_, fun r hr => ?_, fun row2 hrow2 => ?_⟩
      · rw [List.map_map]
        apply List.map_congr_left
        intro r _
        by_cases h : r.id = row.id <;> simp [h]
      · refine ⟨_, List.mem_map_of_mem _ hr, ?_, ?_⟩
        · by_cases h : r.id = row.id <;> simp [h]
        · by_cases h : r.id = row.id <;> simp [h]
      · injection hrow2 with hh
        subst hh
        have hmem := List.mem_of_find?_eq_some hfind
        refine ⟨_, List.mem_map_of_mem _ hmem, ?_, ?_⟩
        · simp
        · simp
  | none =>
      simp only [hfind]
      refine ⟨Or.inr (by simp), fun r hr => ⟨r, by simp [hr], rfl, le_refl _⟩,
        fun row2 hrow2 => ?_⟩
      exact absurd hrow2 (by simp)

/-- Rows used by the C8 witness: an existing 1.2.3.4 indicator at confidence
3/10 re-observed with incoming confidence 9/10. -/
def c8Table : List IndicatorRow :=
  [⟨"id1", "IP", "1.2.3.4", "feed", 3 / 10, "t0", "t0", "m0"⟩]

/-- The re-observation event used by the C8 witness. -/
def c8Event : NormalizedEvent := ⟨"IP", "1.2.3.4", "feed", some (9 / 10), "m1"⟩

/-- Witness for C8: the stored 1.2.3.4 row survives the update with
confidence max(3/10, 9/10). -/
theorem storeIndicator_confidence_monotone_witness :
    ∃ r2 ∈ (storeIndicator c8Table c8Event "id2" "t1").2,
      r2.id = "id1" ∧ r2.confidence = max (3 / 10) (incomingConfidence c8Event) :=
  (storeIndicator_confidence_monotone c8Table c8Event "id2" "t1").2.2
    ⟨"id1", "IP", "1.2.3.4", "feed", 3 / 10, "t0", "t0", "m0"⟩ rfl

/-- JavaScript array indexing as used by the ML estimators: features[i] is
undefined past the end, and every threshold comparison against undefined is
false -- the same behavior as comparing against 0, since all thresholds in
the code are positive. -/
def jsArrayGet (features : List ℝ) (i : ℕ) : ℝ :=
  features.getD i 0

/-- IsolationForest.predict: additive threshold scorer over the normalized
feature array, clamped to at most 1 by the final Math.min. -/
noncomputable def isolationForestPredict (features : List ℝ) : ℝ :=
  let f := jsArrayGet features
  let s1 : ℝ := if f 0 > 0.7 then 0 + 0.3 else 0
  let s2 := if f 1 > 0.6 then s1 + 0.25 else s1
  let s3 := if f 2 > 0.5 then s2 + 0.2 else s2
  let s4 := if f 3 > 0.6 ∨ f 4 > 0.6 then s3 + 0.25 else s3
  let s5 := if f 5 > 0.7 then s4 + 0.3 else s4
  let s6 := if f 6 > 0.5 then s5 + 0.4 else s5
  let s7 := if f 7 > 0.7 then s6 + 0.3 else s6
  let s8 := if f 8 > 0.6 then s7 + 0.2 else s7
  let s9 := if f 9 > 0.8 then s8 + 0.25 else s8
  min s9 1

/-- RandomForestClassifier.predictProba: each triggered tree adds its fixed
malicious-probability estimate and a unit weight; the result is the mean of
the triggered contributions (0 when none trigger), clamped to at most 1. -/
noncomputable def randomForestPredictProba (features : List ℝ) : ℝ :=
  let f := jsArrayGet features
  let a1 : ℝ × ℝ := if f 6 > 0.4 then (0 + 0.8, 0 + 1) else (0, 0)
  let a2 := if f 0 > 0.5 ∧ f 1 > 0.5 then (a1.1 + 0.7, a1.2 + 1) else a1
  let a3 := if f 5 > 0.6 ∧ f 2 ≥ 0.3 then (a2.1 + 0.75, a2.2 + 1) else a2
  let a4 := if f 4 > 0.5 ∨ f 7 > 0.6 then (a3.1 + 0.65, a3.2 + 1) else a3
  let a5 := if f 3 > 0.4 ∧ f 1 > 0.4 then (a4.1 + 0.7, a4.2 + 1) else a4
  let a6 := if f 9 > 0.7 then (a5.1 + 0.6, a5.2 + 1) else a5
  let a7 := if f 8 > 0.5 then (a6.1 + 0.55, a6.2 + 1) else a6
  let a8 := if f 6 > 0.3 ∧ f 5 > 0.5 then (a7.1 + 0.85, a7.2 + 1) else a7
  let a9 := if f 0 > 0.6 ∧ (f 3 > 0.5 ∨ f 4 > 0.5) then (a8.1 + 0.75, a8.2 + 1) else a8
  if a9.2 = 0 then 0 else min (a9.1 / a9.2) 1

/-- The record returned by MLEngine.detectAnomaly (score, isAnomaly flag, and
the confidence field that duplicates the score). -/
structure AnomalyResult where
  score : ℝ
  isAnomaly : Bool
  confidence : ℝ

/-- The record returned by MLEngine.classifyThreat, restricted to the fields
both branches of the code define. -/
structure ClassificationResult where
  malicious_probability : ℝ
  classification : String

/-- MLEngine.detectAnomaly: the feature vector is passed in as produced by
createFeatureVector (none models the null vector of a failed extraction). -/
noncomputable def detectAnomaly (featureVector : Option (List ℝ)) : AnomalyResult :=
  match featureVector with
  | none => ⟨0, false, 0⟩
  | some features =>
      let anomalyScore := isolationForestPredict features
      ⟨anomalyScore, if anomalyScore > 0.6 then true else false, anomalyScore⟩

/-- MLEngine.classifyThreat over the same passed-in feature vector. -/
noncomputable def classifyThreat (featureVector : Option (List ℝ)) : ClassificationResult :=
  match featureVector with
  | none => ⟨0, "benign"⟩
  | some features =>
      let probability := randomForestPredictProba features
      ⟨probability, if probability > 0.5 then "malicious" else "benign"⟩

/-- JavaScript Math.round on a real value: round half toward positive
infinity. -/
noncomputable def jsRoundReal (x : ℝ) : ℤ :=
  ⌊x + 1 / 2⌋

/-- The record returned by MLEngine.calculateMLScore. -/
structure MLScoreResult where
  score : ℤ
  anomaly : AnomalyResult
  classification : ClassificationResult

/-- MLEngine.calculateMLScore: 60% classification, 40% anomaly, scaled to 100
and rounded. -/
noncomputable def calculateMLScore (featureVector : Option (List ℝ)) : MLScoreResult :=
  let anomalyResult := detectAnomaly featureVector
  let classificationResult := classifyThreat featureVector
  let combinedScore :=
    (classificationResult.malicious_probability * 0.6 + anomalyResult.score * 0.4) * 100
  ⟨jsRoundReal combinedScore, anomalyResult, classificationResult⟩

/-- An if-then-else that either keeps a nonnegative accumulator or adds a
nonnegative increment stays nonnegative. -/
lemma ite_add_nonneg {c : Prop} [Decidable c] {s d : ℝ} (hs : 0 ≤ s) (hd : 0 ≤ d) :
    0 ≤ if c then s + d else s := by
  split
  · linarith
  · exact hs

/-- The isolation-forest score is clamped to the unit interval. -/
lemma isolationForestPredict_mem_unit (features : List ℝ) :
    0 ≤ isolationForestPredict features ∧ isolationForestPredict features ≤ 1 := by
  unfold isolationForestPredict
  refine ⟨le_min ?_ (by norm_num), min_le_right _ _⟩
  refine ite_add_nonneg (ite_add_nonneg (ite_add_nonneg (ite_add_nonneg (ite_add_nonneg
    (ite_add_nonneg (ite_add_nonneg (ite_add_nonneg (ite_add_nonneg (le_refl 0)
    (by norm_num)) (by norm_num)) (by norm_num)) (by norm_num)) (by norm_num))
    (by norm_num)) (by norm_num)) (by norm_num)) (by norm_num)

/-- C5.  For every normalized feature vector, the combined ML score is
round(100·(0.6·classifierProbability + 0.4·anomalyScore)), the anomaly score
is clamped to [0,1], and the isAnomaly flag is set exactly when the anomaly
score exceeds 0.6. -/
theorem calculateMLScore_formula (features : List ℝ) :
    (calculateMLScore (some features)).score =
      jsRoundReal (100 * (0.6 * (classifyThreat (some features)).malicious_probability +
        0.4 * (detectAnomaly (some features)).score)) ∧
    0 ≤ (detectAnomaly (some features)).score ∧
    (detectAnomaly (some features)).score ≤ 1 ∧
    ((detectAnomaly (some features)).isAnomaly = true ↔
      0.6 < (detectAnomaly (some features)).score) := by
  refine ⟨?_, ?_, ?_, ?_⟩
  · show jsRoundReal _ = jsRoundReal _
    congr 1
    ring
  · exact (isolationForestPredict_mem_unit features).1
  · exact (isolationForestPredict_mem_unit features).2
  · have hscore : (detectAnomaly (some features)).score = isolationForestPredict features := rfl
    rw [hscore]
    show (if isolationForestPredict features > 0.6 then true else false) = true ↔ _
    by_cases h : isolationForestPredict features > 0.6 <;> simp [h]

/-- One adjacency entry of this.graph: a directed edge to target with its
relation type and weight. -/
structure Neighbor where
  target : String
  type : String
  weight : ℚ
deriving Repr, DecidableEq

/-- A snapshot of the in-memory graph after buildGraph: this.nodes in
insertion order and the adjacency map this.graph as an association list from
node id to its outgoing edge list.  The randomized rebuild performed by
buildGraph is modelled by quantifying over the snapshot it produces. -/
structure GraphState where
  nodes : List GNode
  adjList : List (String × List Neighbor)
deriving Repr, DecidableEq

/-- The keys of this.nodes (Array.from(this.nodes.keys())), in insertion
order. -/
def nodeIds (g : GraphState) : List String :=
  g.nodes.map (fun n => n.id)

/-- Lookup in the adjacency map: this.graph.get(id) || []. -/
def adjGet (g : GraphState) (nodeId : String) : List Neighbor :=
  match g.adjList.find? (fun p => p.1 == nodeId) with
  | some p => p.2
  | none => []

/-- The inner double loop of one PageRank iteration at one node: every node
that has an edge to nodeId (counted once by the find, however many parallel
edges exist) contributes its current rank divided by its raw out-degree. -/
def pagerankContribution (g : GraphState) (pr : String → ℚ) (nodeId : String) : ℚ :=
  ((nodeIds g).map (fun otherId =>
    let neighbors := adjGet g otherId
    match neighbors.find? (fun n => n.target == nodeId) with
    | some _ => if 0 < neighbors.length then pr otherId / neighbors.length else 0
    | none => 0)).sum

/-- One PageRank power iteration: every node key is overwritten with the
damped contribution sum (Object.assign over the newPagerank object); values
at non-keys are never read or written. -/
def pagerankIteration (g : GraphState) (dampingFactor : ℚ) (pr : String → ℚ) :
    String → ℚ :=
  fun nodeId =>
    if (nodeIds g).contains nodeId then
      (1 - dampingFactor) / ((nodeIds g).length : ℚ) +
        dampingFactor * pagerankContribution g pr nodeId
    else pr nodeId

/-- GraphEngine.calculatePageRank with explicit iteration count and damping
factor: initialization at 1/N on every node key, then the fixed number of
power iterations; the empty graph returns the empty object, read back as 0
everywhere. -/
def calculatePageRankWith (g : GraphState) (iterations : ℕ) (dampingFactor : ℚ) :
    String → ℚ :=
  if (nodeIds g).length = 0 then fun _ => 0
  else
    (pagerankIteration g dampingFactor)^[iterations]
      (fun nodeId => if (nodeIds g).contains nodeId then 1 / ((nodeIds g).length : ℚ) else 0)

/-- GraphEngine.calculatePageRank at its default arguments (20 iterations,
damping factor 0.85), the only way the code calls it. -/
def calculatePageRank (g : GraphState) : String → ℚ :=
  calculatePageRankWith g 20 (17 / 20)

/-- GraphEngine.calculateCentrality at one node: out-degree over N-1, or 0
when there is at most one node. -/
def calculateCentrality (g : GraphState) (nodeId : String) : ℚ :=
  let maxDegree : ℤ := ((nodeIds g).length : ℤ) - 1
  if 0 < maxDegree then ((adjGet g nodeId).length : ℚ) / (maxDegree : ℚ) else 0

/-- GraphEngine.calculateClusterDensity: fraction of ordered pairs of (not
deduplicated) neighbor entries that are distinct and connected by some edge,
over neighbors·(neighbors-1); 0 for fewer than two neighbor entries. -/
def calculateClusterDensity (g : GraphState) (nodeId : String) : ℚ :=
  let neighbors := adjGet g nodeId
  if neighbors.length < 2 then 0
  else
    let neighborIds := neighbors.map (fun n => n.target)
    let connections := (neighborIds.map (fun n1 =>
      let n1Neighbors := adjGet g n1
      (neighborIds.map (fun n2 =>
        if n1 ≠ n2 ∧ n1Neighbors.any (fun n => n.target == n2) then (1 : ℕ) else 0)).sum)).sum
    let maxConnections := neighbors.length * (neighbors.length - 1)
    if 0 < maxConnections then (connections : ℚ) / (maxConnections : ℚ) else 0

/-- JavaScript Math.round on a rational: round half toward positive
infinity. -/
def jsRound (q : ℚ) : ℤ :=
  ⌊q + 1 / 2⌋

/-- The details object of a graph score. -/
structure GraphDetails where
  pagerank : ℚ
  centrality : ℚ
  clusterDensity : ℚ
  neighbors : ℕ
deriving Repr, DecidableEq

/-- The record returned by GraphEngine.calculateGraphScore; empty details are
modelled as none. -/
structure GraphScoreResult where
  score : ℤ
  details : Option GraphDetails
deriving Repr, DecidableEq

/-- GraphEngine.calculateGraphScore over the rebuilt snapshot: the first node
whose entity_value matches the indicator is scored by the weighted blend of
its PageRank, centrality and cluster density; no matching node gives score 0
with empty details.  The pagerank[node.id] || 0 and centrality[node.id] || 0
reads are the total functions of this embedding. -/
def calculateGraphScore (g : GraphState) (indicatorValue : String) : GraphScoreResult :=
  match g.nodes.find? (fun n => n.entity_value == indicatorValue) with
  | none => ⟨0, none⟩
  | some node =>
      let pagerank := calculatePageRank g node.id
      let centrality := calculateCentrality g node.id
      let clusterDensity := calculateClusterDensity g node.id
      let pagerankWeight := pagerank * 1000
      let centralityWeight := centrality * 100
      let densityWeight := clusterDensity * 100
      let score := 0.4 * pagerankWeight + 0.3 * centralityWeight + 0.3 * densityWeight
      ⟨min (jsRound score) 100,
       some ⟨pagerank, centrality, clusterDensity, (adjGet g node.id).length⟩⟩

/-- Clamping after rounding at 100 agrees with rounding after clamping at
100, since Math.round is monotone and fixes 100. -/
lemma min_jsRound_100 (s : ℚ) : min (jsRound s) 100 = jsRound (min 100 s) := by
  unfold jsRound
  have h100 : ⌊(100 : ℚ) + 1 / 2⌋ = 100 := by norm_num [Int.floor_eq_iff]
  rcases le_total s 100 with h | h
  · have h1 : ⌊s + 1 / 2⌋ ≤ 100 := by
      rw [← h100]
      exact Int.floor_le_floor (by linarith)
    rw [min_eq_right h, min_eq_left h1]
  · have h1 : (100 : ℤ) ≤ ⌊s + 1 / 2⌋ := by
      rw [← h100]
      exact Int.floor_le_floor (by linarith)
    rw [min_eq_left h, min_eq_right h1, h100]

/-- C6.  The graph score of an indicator with a matching node is
round(min(100, 0.4·1000·pagerank + 0.3·100·centrality +
0.3·100·clusterDensity)); an indicator with no matching node scores 0 with
empty details. -/
theorem calculateGraphScore_formula (g : GraphState) (indicatorValue : String) :
    (g.nodes.find? (fun n => n.entity_value == indicatorValue) = none →
      calculateGraphScore g indicatorValue = ⟨0, none⟩) ∧
    (∀ node, g.nodes.find? (fun n => n.entity_value == indicatorValue) = some node →
      (calculateGraphScore g indicatorValue).score =
        jsRound (min 100 (0.4 * (1000 * calculatePageRank g node.id) +
          0.3 * (100 * calculateCentrality g node.id) +
          0.3 * (100 * calculateClusterDensity g node.id)))) := by
  constructor
  · intro h
    unfold calculateGraphScore
    rw [h]
  · intro node h
    unfold calculateGraphScore
    rw [h]
    show min (jsRound _) 100 = _
    rw [min_jsRound_100]
    congr 1
    congr 1
    ring

/-- Single-node graph used by the C6 witness. -/
def c6Graph : GraphState := ⟨[⟨"n1", "IP", "9.9.9.9"⟩], []⟩

/-- Witness for C6: the single-node graph scores its node by the blended
formula. -/
theorem calculateGraphScore_formula_witness :
    (calculateGraphScore c6Graph "9.9.9.9").score =
      jsRound (min 100 (0.4 * (1000 * calculatePageRank c6Graph "n1") +
        0.3 * (100 * calculateCentrality c6Graph "n1") +
        0.3 * (100 * calculateClusterDensity c6Graph "n1"))) :=
  (calculateGraphScore_formula c6Graph "9.9.9.9").2 ⟨"n1", "IP", "9.9.9.9"⟩ rfl

/-- Single isolated node: the graph used by the C2 counterexample. -/
def c2Graph : GraphState := ⟨[⟨"a", "IP", "1.1.1.1"⟩], []⟩

/-- On the single isolated node, every PageRank iteration yields the constant
(1-d)/N = 0.15: the contribution sum is empty. -/
lemma c2Graph_iteration_value (pr : String → ℚ) :
    pagerankIteration c2Graph (17 / 20) pr "a" = 3 / 20 := by
  have hcontrib : pagerankContribution c2Graph pr "a" = 0 := by
    simp [pagerankContribution, nodeIds, c2Graph, adjGet]
  unfold pagerankIteration
  rw [if_pos (by decide : ((nodeIds c2Graph).contains "a") = true), hcontrib]
  norm_num [nodeIds, c2Graph]

/-- Counterexample for C2.  On the fixed non-empty snapshot consisting of one
node with no edges, the PageRank values after the 20 default iterations sum
to 3/20 = 0.15, far from 1: the iteration redistributes no rank for dangling
nodes, so the total leaks. -/
theorem pagerank_sum_counterexample :
    ((nodeIds c2Graph).map (calculatePageRank c2Graph)).sum = 3 / 20 ∧
    ¬ (|((nodeIds c2Graph).map (calculatePageRank c2Graph)).sum - 1| ≤ 1 / 2) := by
  have hval : calculatePageRank c2Graph "a" = 3 / 20 := by
    show calculatePageRankWith c2Graph 20 (17 / 20) "a" = 3 / 20
    unfold calculatePageRankWith
    rw [if_neg (by decide : ¬ ((nodeIds c2Graph).length = 0)), Function.iterate_succ_apply']
    exact c2Graph_iteration_value _
  have hsum : ((nodeIds c2Graph).map (calculatePageRank c2Graph)).sum =
      calculatePageRank c2Graph "a" := by
    show List.sum [calculatePageRank c2Graph "a"] = _
    simp
  rw [hsum, hval]
  refine ⟨rfl, ?_⟩
  rw [show (3 / 20 : ℚ) - 1 = -(17 / 20) by norm_num, abs_neg,
    abs_of_nonneg (by norm_num : (0 : ℚ) ≤ 17 / 20)]
  norm_num

/-- Sum of a pointwise sum of two list maps. -/
lemma listSum_map_add {α : Type} (l : List α) (f g : α → ℚ) :
    (l.map (fun x => f x + g x)).sum = (l.map f).sum + (l.map g).sum := by
  induction l with
  | nil => simp
  | cons a t ih =>
      simp only [List.map_cons, List.sum_cons, ih]
      ring

/-- Sum of a constant map. -/
lemma listSum_map_const {α : Type} (l : List α) (c : ℚ) :
    (l.map (fun _ => c)).sum = l.length * c := by
  induction l with
  | nil => simp
  | cons a t ih =>
      simp only [List.map_cons, List.sum_cons, ih, List.length_cons]
      push_cast
      ring

/-- Exchanging the order of a double list sum. -/
lemma listSum_map_swap {α β : Type} (l1 : List α) (l2 : List β) (F : α → β → ℚ) :
    (l1.map (fun a => (l2.map (fun b => F a b)).sum)).sum =
    (l2.map (fun b => (l1.map (fun a => F a b)).sum)).sum := by
  induction l1 with
  | nil =>
      simp only [List.map_nil, List.sum_nil]
      rw [eq_comm, listSum_map_const]
      ring
  | cons a t ih =>
      simp only [List.map_cons, List.sum_cons, ih]
      rw [← listSum_map_add]

/-- Pulling a constant factor out of a list sum. -/
lemma listSum_map_mul_left {α : Type} (l : List α) (c : ℚ) (f : α → ℚ) :
    (l.map (fun x => c * f x)).sum = c * (l.map f).sum := by
  induction l with
  | nil => simp
  | cons a t ih =>
      simp only [List.map_cons, List.sum_cons, ih]
      ring

/-- Sum of an indicator-style map: each element satisfying the predicate
contributes the constant c. -/
lemma listSum_map_ite_const {α : Type} (l : List α) (p : α → Bool) (c : ℚ) :
    (l.map (fun v => if p v then c else 0)).sum = (l.countP p) * c := by
  induction l with
  | nil => simp
  | cons a t ih =>
      by_cases h : p a <;>
        simp only [List.map_cons, List.sum_cons, ih, List.countP_cons, h, if_pos, if_neg,
          Bool.false_eq_true, ite_true, ite_false] <;>
        push_cast <;>
        ring

/-- Counting the members of a duplicate-free sublist inside a duplicate-free
list gives the sublist's length. -/
lemma countP_mem_eq_length (ids ts : List String) (hids : ids.Nodup) (hts : ts.Nodup)
    (hsub : ∀ t ∈ ts, t ∈ ids) :
    ids.countP (fun v => decide (v ∈ ts)) = ts.length := by
  rw [List.countP_eq_length_filter]
  have hperm : (ids.filter (fun v => decide (v ∈ ts))).Perm ts := by
    apply (List.perm_ext_iff_of_nodup (List.Nodup.filter _ hids) hts).mpr
    intro a
    simp only [List.mem_filter, decide_eq_true_eq]
    exact ⟨fun h => h.2, fun h => ⟨hsub a h, h⟩⟩
  exact hperm.length_eq

/-- The contribution of one source node, summed over all node keys: when the
source has at least one outgoing edge, pairwise-distinct targets, and all
targets among the node keys, it hands out exactly its own rank. -/
lemma contribution_inner_sum (g : GraphState) (pr : String → ℚ) (u : String)
    (hnodup : (nodeIds g).Nodup)
    (hne : adjGet g u ≠ [])
    (htnodup : ((adjGet g u).map (fun n => n.target)).Nodup)
    (htsub : ∀ n ∈ adjGet g u, n.target ∈ nodeIds g) :
    ((nodeIds g).map (fun v =>
      match (adjGet g u).find? (fun n => n.target == v) with
      | some _ => if 0 < (adjGet g u).length then pr u / ((adjGet g u).length : ℚ) else 0
      | none => 0)).sum = pr u := by
  have hlen : 0 < (adjGet g u).length := List.length_pos.mpr hne
  have hrewrite : ∀ v, (match (adjGet g u).find? (fun n => n.target == v) with
      | some _ => if 0 < (adjGet g u).length then pr u / ((adjGet g u).length : ℚ) else 0
      | none => 0) =
      if decide (v ∈ (adjGet g u).map (fun n => n.target)) then
        pr u / ((adjGet g u).length : ℚ) else 0 := by
    intro v
    cases hfind : (adjGet g u).find? (fun n => n.target == v) with
    | some n =>
        have hmem : v ∈ (adjGet g u).map (fun n => n.target) := by
          have h1 := List.mem_of_find?_eq_some hfind
          have h2 := List.find?_some hfind
          rw [beq_iff_eq] at h2
          exact h2 ▸ List.mem_map_of_mem _ h1
        simp [hmem, hlen]
    | none =>
        have hnmem : ¬ (v ∈ (adjGet g u).map (fun n => n.target)) := by
          intro hv
          rcases List.mem_map.mp hv with ⟨n, hn, hnt⟩
          have := List.find?_eq_none.mp hfind n hn
          rw [beq_iff_eq] at this
          exact this hnt
        simp [hnmem]
  rw [List.map_congr_left (fun v _ => hrewrite v), listSum_map_ite_const,
    countP_mem_eq_length _ _ hnodup htnodup
      (fun t ht => by rcases List.mem_map.mp ht with ⟨n, hn, hnt⟩; exact hnt ▸ htsub n hn),
    List.length_map]
  have hlenQ : ((adjGet g u).length : ℚ) ≠ 0 := by
    exact_mod_cast Nat.pos_iff_ne_zero.mp hlen
  field_simp

/-- One PageRank power iteration preserves a unit total over the node keys
when every node has an outgoing edge, targets are pairwise distinct per node,
and no edge dangles. -/
lemma pagerankIteration_sum (g : GraphState) (d : ℚ)
    (hnodup : (nodeIds g).Nodup)
    (hout : ∀ u ∈ nodeIds g, adjGet g u ≠ [])
    (htnodup : ∀ u ∈ nodeIds g, ((adjGet g u).map (fun n => n.target)).Nodup)
    (htsub : ∀ u ∈ nodeIds g, ∀ n ∈ adjGet g u, n.target ∈ nodeIds g)
    (hne : (nodeIds g).length ≠ 0)
    (pr : String → ℚ) (hsum : ((nodeIds g).map pr).sum = 1) :
    ((nodeIds g).map (pagerankIteration g d pr)).sum = 1 := by
  have hN : ((nodeIds g).length : ℚ) ≠ 0 := by exact_mod_cast hne
  have hcongr : (nodeIds g).map (pagerankIteration g d pr) =
      (nodeIds g).map (fun v =>
        (1 - d) / ((nodeIds g).length : ℚ) + d * pagerankContribution g pr v) := by
    apply List.map_congr_left
    intro v hv
    unfold pagerankIteration
    rw [if_pos (by simpa using hv : ((nodeIds g).contains v) = true)]
  rw [hcongr, listSum_map_add, listSum_map_const, listSum_map_mul_left]
  have hswap : ((nodeIds g).map (fun v => pagerankContribution g pr v)).sum =
      ((nodeIds g).map (fun u =>
        ((nodeIds g).map (fun v =>
          match (adjGet g u).find? (fun n => n.target == v) with
          | some _ => if 0 < (adjGet g u).length then pr u / ((adjGet g u).length : ℚ) else 0
          | none => 0)).sum)).sum := by
    unfold pagerankContribution
    exact listSum_map_swap _ _ _
  rw [hswap]
  have hinner : (nodeIds g).map (fun u =>
      ((nodeIds g).map (fun v =>
        match (adjGet g u).find? (fun n => n.target == v) with
        | some _ => if 0 < (adjGet g u).length then pr u / ((adjGet g u).length : ℚ) else 0
        | none => 0)).sum) = (nodeIds g).map pr := by
    apply List.map_congr_left
    intro u hu
    exact contribution_inner_sum g pr u hnodup (hout u hu) (htnodup u hu) (htsub u hu)
  rw [hinner, hsum]
  field_simp

/-- The initial PageRank assignment of 1/N per node key sums to 1, and each
of the n iterations preserves that total. -/
lemma calculatePageRankWith_sum (g : GraphState) (d : ℚ)
    (hne : nodeIds g ≠ [])
    (hnodup : (nodeIds g).Nodup)
    (hout : ∀ u ∈ nodeIds g, adjGet g u ≠ [])
    (htnodup : ∀ u ∈ nodeIds g, ((adjGet g u).map (fun n => n.target)).Nodup)
    (htsub : ∀ u ∈ nodeIds g, ∀ n ∈ adjGet g u, n.target ∈ nodeIds g)
    (n : ℕ) :
    ((nodeIds g).map (calculatePageRankWith g n d)).sum = 1 := by
  have hlen : (nodeIds g).length ≠ 0 := fun h => hne (List.length_eq_zero.mp h)
  have hN : ((nodeIds g).length : ℚ) ≠ 0 := by exact_mod_cast hlen
  unfold calculatePageRankWith
  rw [if_neg hlen]
  induction n with
  | zero =>
      simp only [Function.iterate_zero, id]
      have hcongr : (nodeIds g).map (fun nodeId =>
          if (nodeIds g).contains nodeId then 1 / ((nodeIds g).length : ℚ) else 0) =
          (nodeIds g).map (fun _ => 1 / ((nodeIds g).length : ℚ)) := by
        apply List.map_congr_left
        intro v hv
        rw [if_pos (by simpa using hv : ((nodeIds g).contains v) = true)]
      rw [hcongr, listSum_map_const]
      field_simp
  | succ m ih =>
      rw [Function.iterate_succ_apply']
      exact pagerankIteration_sum g d hnodup hout htnodup htsub hlen _ ih

/-- C2 as amended.  For a fixed non-empty snapshot in which every node has at
least one outgoing edge, no node has two edges to the same target, and no
edge dangles outside the node set, the PageRank values after the default 20
iterations sum to exactly 1 (the arithmetic is exact in this embedding).
Without these conditions the sum can be far below 1: rank leaks at dangling
nodes, as the 0.15 total of a single isolated node shows. -/
theorem pagerank_sum_conservation (g : GraphState)
    (hne : nodeIds g ≠ [])
    (hnodup : (nodeIds g).Nodup)
    (hout : ∀ u ∈ nodeIds g, adjGet g u ≠ [])
    (htnodup : ∀ u ∈ nodeIds g, ((adjGet g u).map (fun n => n.target)).Nodup)
    (htsub : ∀ u ∈ nodeIds g, ∀ n ∈ adjGet g u, n.target ∈ nodeIds g) :
    ((nodeIds g).map (calculatePageRank g)).sum = 1 :=
  calculatePageRankWith_sum g (17 / 20) hne hnodup hout htnodup htsub 20

/-- Two-node cycle used by the C2 witness. -/
def c2WitnessGraph : GraphState :=
  ⟨[⟨"a", "IP", "1.0.0.1"⟩, ⟨"b", "IP", "1.0.0.2"⟩],
   [("a", [⟨"b", "communicates_with", 3 / 5⟩]),
    ("b", [⟨"a", "communicates_with", 3 / 5⟩])]⟩

/-- Witness for C2 as amended: on the two-node cycle the PageRank values sum
to exactly 1. -/
theorem pagerank_sum_conservation_witness :
    ((nodeIds c2WitnessGraph).map (calculatePageRank c2WitnessGraph)).sum = 1 :=
  pagerank_sum_conservation c2WitnessGraph (by decide) (by decide) (by decide)
    (by decide) (by decide)

/-- Largest outgoing-edge list length in the adjacency map; used only to
bound the BFS termination measure. -/
def maxOutDegree (g : GraphState) : ℕ :=
  (g.adjList.map (fun p => p.2.length)).foldr max 0

/-- The keys of the adjacency map. -/
def adjKeys (g : GraphState) : List String :=
  g.adjList.map (fun p => p.1)

/-- Every edge target appearing in the adjacency map. -/
def allTargets (g : GraphState) : List String :=
  (g.adjList.map (fun p => p.2.map (fun n => n.target))).flatten

/-- Every identifier the community BFS can ever see: node keys, adjacency
keys and edge targets. -/
def graphUniverse (g : GraphState) : List String :=
  nodeIds g ++ adjKeys g ++ allTargets g

/-- Number of universe entries not yet visited. -/
def unvisitedCount (g : GraphState) (visited : List String) : ℕ :=
  (graphUniverse g).countP (fun x => !(visited.contains x))

/-- Termination measure of the BFS loop: visiting a node pays for all the
queue entries it can push. -/
def bfsMeasure (g : GraphState) (visited queue : List String) : ℕ :=
  (maxOutDegree g + 1) * unvisitedCount g visited + queue.length

/-- A list member is bounded by the running maximum of the list. -/
lemma le_foldr_max (l : List ℕ) (a : ℕ) (h : a ∈ l) : a ≤ l.foldr max 0 := by
  induction l with
  | nil => cases h
  | cons b t ih =>
      rcases List.mem_cons.mp h with rfl | ht
      · exact le_max_left _ _
      · exact le_trans (ih ht) (le_max_right _ _)

/-- Any adjacency lookup is bounded by the maximal out-degree. -/
lemma adjGet_length_le (g : GraphState) (id : String) :
    (adjGet g id).length ≤ maxOutDegree g := by
  unfold adjGet
  cases hfind : g.adjList.find? (fun p => p.1 == id) with
  | none => exact Nat.zero_le _
  | some p =>
      exact le_foldr_max _ _
        (List.mem_map_of_mem _ (List.mem_of_find?_eq_some hfind))

/-- Looking up an identifier that is not an adjacency key yields the empty
list. -/
lemma adjGet_eq_nil_of_not_key (g : GraphState) (id : String) (h : ¬ id ∈ adjKeys g) :
    adjGet g id = [] := by
  unfold adjGet
  cases hfind : g.adjList.find? (fun p => p.1 == id) with
  | none => rfl
  | some p =>
      exfalso
      apply h
      have hp := List.find?_some hfind
      rw [beq_iff_eq] at hp
      exact hp ▸ List.mem_map_of_mem _ (List.mem_of_find?_eq_some hfind)

/-- Adjacency keys lie inside the universe. -/
lemma adjKeys_subset_universe (g : GraphState) (id : String) (h : id ∈ adjKeys g) :
    id ∈ graphUniverse g :=
  List.mem_append_left _ (List.mem_append_right _ h)

/-- Edge targets lie inside allTargets. -/
lemma target_mem_allTargets (g : GraphState) (u : String) (n : Neighbor)
    (hn : n ∈ adjGet g u) : n.target ∈ allTargets g := by
  unfold adjGet at hn
  cases hfind : g.adjList.find? (fun p => p.1 == u) with
  | none => rw [hfind] at hn; cases hn
  | some p =>
      rw [hfind] at hn
      exact List.mem_flatten.mpr
        ⟨p.2.map (fun n => n.target),
         List.mem_map_of_mem _ (List.mem_of_find?_eq_some hfind),
         List.mem_map_of_mem _ hn⟩

/-- Strict countP decrease when one counted element stops satisfying the
predicate and the predicate only shrinks. -/
lemma countP_lt_of_mem {α : Type} (l : List α) (p q : α → Bool)
    (himp : ∀ x, q x = true → p x = true) (a : α) (ha : a ∈ l)
    (hpa : p a = true) (hqa : q a = false) : l.countP q < l.countP p := by
  induction l with
  | nil => cases ha
  | cons b t ih =>
      rw [List.countP_cons, List.countP_cons]
      have hmono : t.countP q ≤ t.countP p :=
        List.countP_mono_left (fun x _ hx => himp x hx)
      rcases List.mem_cons.mp ha with rfl | ht
      · rw [hqa, hpa]
        simp only [Bool.false_eq_true, if_false, if_true, ite_true, ite_false]
        omega
      · have hlt := ih ht
        have hle : (if q b = true then 1 else 0) ≤ (if p b = true then 1 else 0) := by
          by_cases hqb : q b = true
          · rw [if_pos hqb, if_pos (himp b hqb)]
          · rw [if_neg hqb]
            exact Nat.zero_le _
        omega

/-- Bridge between the boolean non-membership test and the membership
proposition. -/
lemma contains_false_iff (l : List String) (x : String) :
    ((!(l.contains x)) = true) ↔ ¬ x ∈ l := by
  simp

/-- Marking a fresh universe member as visited strictly shrinks the
unvisited count. -/
lemma unvisitedCount_append_lt (g : GraphState) (visited : List String) (node : String)
    (hm : node ∈ graphUniverse g) (hnv : visited.contains node = false) :
    unvisitedCount g (visited ++ [node]) < unvisitedCount g visited := by
  have hnode : ¬ node ∈ visited := by
    intro hmem
    have h2 : visited.contains node = true := by simpa using hmem
    rw [hnv] at h2
    cases h2
  unfold unvisitedCount
  refine countP_lt_of_mem _ _ _ (fun x hx => ?_) node hm ?_ ?_
  · rw [contains_false_iff] at hx ⊢
    exact fun hv => hx (List.mem_append_left _ hv)
  · rw [contains_false_iff]
    exact hnode
  · have hmem : node ∈ visited ++ [node] := List.mem_append_right _ (by simp)
    simp [hmem]

/-- Marking an identifier outside the universe changes no universe count. -/
lemma unvisitedCount_append_eq (g : GraphState) (visited : List String) (node : String)
    (hm : ¬ node ∈ graphUniverse g) :
    unvisitedCount g (visited ++ [node]) = unvisitedCount g visited := by
  unfold unvisitedCount
  apply List.countP_congr
  intro x hx
  have hne : x ≠ node := fun h => hm (h ▸ hx)
  simp [hne]

/-- Popping an already-visited node shrinks the measure. -/
lemma bfsMeasure_tail (g : GraphState) (visited : List String) (node : String)
    (rest : List String) :
    bfsMeasure g visited rest < bfsMeasure g visited (node :: rest) := by
  unfold bfsMeasure
  rw [List.length_cons]
  exact Nat.add_lt_add_left (Nat.lt_succ_self _) _

/-- Visiting a fresh node shrinks the measure even after pushing all its
eligible neighbors. -/
lemma bfsMeasure_visit (g : GraphState) (visited rest : List String) (node : String)
    (hnv : visited.contains node = false) :
    bfsMeasure g (visited ++ [node])
        (rest ++ ((adjGet g node).filter (fun n => !(visited.contains n.target) &&
          decide ((0.5 : ℚ) < n.weight))).map (fun n => n.target)) <
      bfsMeasure g visited (node :: rest) := by
  unfold bfsMeasure
  rw [List.length_append, List.length_map, List.length_cons]
  by_cases hm : node ∈ graphUniverse g
  · have hU := unvisitedCount_append_lt g visited node hm hnv
    have hp : ((adjGet g node).filter (fun n => !(visited.contains n.target) &&
        decide ((0.5 : ℚ) < n.weight))).length ≤ maxOutDegree g :=
      le_trans (List.length_filter_le _ _) (adjGet_length_le g node)
    have hmul : (maxOutDegree g + 1) * unvisitedCount g (visited ++ [node]) +
        (maxOutDegree g + 1) ≤ (maxOutDegree g + 1) * unvisitedCount g visited := by
      rw [← Nat.mul_succ]
      exact Nat.mul_le_mul_left _ (Nat.succ_le_of_lt hU)
    set A := (maxOutDegree g + 1) * unvisitedCount g (visited ++ [node])
    set B := (maxOutDegree g + 1) * unvisitedCount g visited
    omega
  · have hU := unvisitedCount_append_eq g visited node hm
    have hadj : adjGet g node = [] :=
      adjGet_eq_nil_of_not_key g node (fun hk => hm (adjKeys_subset_universe g node hk))
    rw [hU, hadj]
    simp only [List.filter_nil, List.map_nil, List.length_nil, Nat.add_zero]
    exact Nat.add_lt_add_left (Nat.lt_succ_self _) _

/-- The while loop of GraphEngine.detectCommunities: pop a node; skip it when
already visited, otherwise visit it, append it to the community, and enqueue
its not-yet-visited neighbors across edges of weight above 0.5.  The visited
set is threaded through; community and queue are the local BFS state. -/
def communityBFS (g : GraphState) (visited community queue : List String) :
    List String × List String :=
  match queue with
  | [] => (visited, community)
  | node :: rest =>
    if h : visited.contains node then communityBFS g visited community rest
    else
      communityBFS g (visited ++ [node]) (community ++ [node])
        (rest ++ ((adjGet g node).filter (fun n => !(visited.contains n.target) &&
          decide ((0.5 : ℚ) < n.weight))).map (fun n => n.target))
termination_by bfsMeasure g visited queue
decreasing_by
  · exact bfsMeasure_tail g visited node rest
  · exact bfsMeasure_visit g visited rest node (by simpa using h)

/-- The body of the outer forEach of detectCommunities: start a BFS at every
not-yet-visited node and record the resulting community when non-empty. -/
def communityStep (g : GraphState) (acc : List String × List (List String))
    (startNode : String) : List String × List (List String) :=
  if acc.1.contains startNode then acc
  else
    let r := communityBFS g acc.1 [] [startNode]
    if 0 < r.2.length then (r.1, acc.2 ++ [r.2]) else (r.1, acc.2)

/-- GraphEngine.detectCommunities: BFS-based components over edges of weight
above 0.5, started from every node key in insertion order. -/
def detectCommunities (g : GraphState) : List (List String) :=
  ((nodeIds g).foldl (communityStep g) (([] : List String), ([] : List (List String)))).2

/-- Invariants of the BFS loop: it returns the incoming visited set and
community both extended by the same duplicate-free block of freshly visited
identifiers, each drawn from the queue or from the edge targets, and every
queue entry ends up visited. -/
lemma communityBFS_spec (g : GraphState) (visited community queue : List String) :
    ∃ Δ : List String,
      communityBFS g visited community queue = (visited ++ Δ, community ++ Δ) ∧
      Δ.Nodup ∧
      (∀ x ∈ Δ, ¬ x ∈ visited) ∧
      (∀ x ∈ Δ, x ∈ queue ∨ x ∈ allTargets g) ∧
      (∀ x ∈ queue, x ∈ visited ++ Δ) := by
  induction visited, community, queue using communityBFS.induct g with
  | case1 visited community =>
      refine ⟨[], by simp [communityBFS], List.nodup_nil, by simp, by simp, by simp⟩
  | case2 visited community node rest h ih =>
      have hstep : communityBFS g visited community (node :: rest) =
          communityBFS g visited community rest := by
        rw [communityBFS]
        exact dif_pos h
      obtain ⟨Δ, hEq, hN, hV, hS, hC⟩ := ih
      refine ⟨Δ, by rw [hstep, hEq], hN, hV, fun x hx => ?_, fun x hx => ?_⟩
      · rcases hS x hx with h1 | h2
        · exact Or.inl (List.mem_cons_of_mem _ h1)
        · exact Or.inr h2
      · rcases List.mem_cons.mp hx with rfl | h1
        · exact List.mem_append_left _ (by simpa using h)
        · exact hC x h1
  | case3 visited community node rest h ih =>
      have hstep : communityBFS g visited community (node :: rest) =
          communityBFS g (visited ++ [node]) (community ++ [node])
            (rest ++ ((adjGet g node).filter (fun n => !(visited.contains n.target) &&
              decide ((0.5 : ℚ) < n.weight))).map (fun n => n.target)) := by
        rw [communityBFS]
        exact dif_neg h
      obtain ⟨Δ2, hEq, hN, hV, hS, hC⟩ := ih
      have hneq : ¬ node ∈ Δ2 :=
        fun hmem => (hV node hmem) (List.mem_append_right _ (by simp))
      refine ⟨node :: Δ2, ?_, ?_, ?_, ?_, ?_⟩
      · rw [hstep, hEq]
        simp [List.append_assoc]
      · exact List.nodup_cons.mpr ⟨hneq, hN⟩
      · intro x hx
        rcases List.mem_cons.mp hx with rfl | h2
        · intro hv
          exact h (by simpa using hv)
        · intro hv
          exact hV x h2 (List.mem_append_left _ hv)
      · intro x hx
        rcases List.mem_cons.mp hx with rfl | h2
        · exact Or.inl (List.mem_cons_self _ _)
        · rcases hS x h2 with h3 | h3
          · rcases List.mem_append.mp h3 with h4 | h4
            · exact Or.inl (List.mem_cons_of_mem _ h4)
            · rcases List.mem_map.mp h4 with ⟨n, hn, rfl⟩
              exact Or.inr (target_mem_allTargets g node n (List.mem_of_mem_filter hn))
          · exact Or.inr h3
      · intro x hx
        rcases List.mem_cons.mp hx with rfl | h2
        · exact List.mem_append_right _ (List.mem_cons_self _ _)
        · have h3 := hC x (List.mem_append_left _ h2)
          rw [List.append_assoc] at h3
          simpa using h3

/-- Invariant of the outer forEach of detectCommunities: the visited set
always equals the concatenation of the collected communities, stays
duplicate-free and inside the node set, communities are non-empty, and every
processed start node ends up visited. -/
lemma detectCommunities_foldl (g : GraphState)
    (hclosed : ∀ x ∈ allTargets g, x ∈ nodeIds g) :
    ∀ (pending visited : List String) (comms : List (List String)),
      visited = comms.flatten →
      visited.Nodup →
      (∀ x ∈ visited, x ∈ nodeIds g) →
      (∀ c ∈ comms, c ≠ []) →
      (∀ x ∈ pending, x ∈ nodeIds g) →
      ((pending.foldl (communityStep g) (visited, comms)).1 =
          (pending.foldl (communityStep g) (visited, comms)).2.flatten ∧
        (pending.foldl (communityStep g) (visited, comms)).1.Nodup ∧
        (∀ x ∈ (pending.foldl (communityStep g) (visited, comms)).1, x ∈ nodeIds g) ∧
        (∀ c ∈ (pending.foldl (communityStep g) (visited, comms)).2, c ≠ []) ∧
        (∀ x ∈ pending, x ∈ (pending.foldl (communityStep g) (visited, comms)).1) ∧
        (∀ x ∈ visited, x ∈ (pending.foldl (communityStep g) (visited, comms)).1)) := by
  intro pending
  induction pending with
  | nil =>
      intro visited comms h1 h2 h3 h4 h5
      simp only [List.foldl_nil]
      exact ⟨h1, h2, h3, h4, by simp, fun x hx => hx⟩
  | cons s pending ih =>
      intro visited comms h1 h2 h3 h4 h5
      rw [List.foldl_cons]
      by_cases hs : visited.contains s = true
      · have hsv : s ∈ visited := by simpa using hs
        have hstep : communityStep g (visited, comms) s = (visited, comms) := by
          simp [communityStep, hsv]
        rw [hstep]
        have hr := ih visited comms h1 h2 h3 h4
          (fun x hx => h5 x (List.mem_cons_of_mem _ hx))
        refine ⟨hr.1, hr.2.1, hr.2.2.1, hr.2.2.2.1, fun x hx => ?_, hr.2.2.2.2.2⟩
        rcases List.mem_cons.mp hx with rfl | hx2
        · exact hr.2.2.2.2.2 x hsv
        · exact hr.2.2.2.2.1 x hx2
      · obtain ⟨Δ, hEq, hN, hV, hS, hC⟩ := communityBFS_spec g visited [] [s]
        have hsnv : ¬ s ∈ visited := by
          intro hv
          exact hs (by simpa using hv)
        have hsmem : s ∈ visited ++ Δ := hC s (by simp)
        have hsΔ : s ∈ Δ := by
          rcases List.mem_append.mp hsmem with hv | hd
          · exact absurd hv hsnv
          · exact hd
        have hΔne : Δ ≠ [] := by
          intro hnil
          rw [hnil] at hsΔ
          cases hsΔ
        have hlen : 0 < Δ.length := List.length_pos.mpr hΔne
        have hstep : communityStep g (visited, comms) s = (visited ++ Δ, comms ++ [Δ]) := by
          simp [communityStep, hsnv, hEq, hlen]
        rw [hstep]
        have hΔsub : ∀ x ∈ Δ, x ∈ nodeIds g := by
          intro x hx
          rcases hS x hx with h6 | h6
          · have hxs : x = s := by simpa using h6
            subst hxs
            exact h5 x (List.mem_cons_self _ _)
          · exact hclosed x h6
        have inv1 : visited ++ Δ = (comms ++ [Δ]).flatten := by
          rw [List.flatten_append, ← h1]
          simp
        have inv2 : (visited ++ Δ).Nodup :=
          h2.append hN (fun a ha1 ha2 => hV a ha2 ha1)
        have inv3 : ∀ x ∈ visited ++ Δ, x ∈ nodeIds g := by
          intro x hx
          rcases List.mem_append.mp hx with h6 | h6
          · exact h3 x h6
          · exact hΔsub x h6
        have inv4 : ∀ c ∈ comms ++ [Δ], c ≠ [] := by
          intro c hc
          rcases List.mem_append.mp hc with h6 | h6
          · exact h4 c h6
          · have hcΔ : c = Δ := by simpa using h6
            subst hcΔ
            exact hΔne
        have hr := ih (visited ++ Δ) (comms ++ [Δ]) inv1 inv2 inv3 inv4
          (fun x hx => h5 x (List.mem_cons_of_mem _ hx))
        refine ⟨hr.1, hr.2.1, hr.2.2.1, hr.2.2.2.1, fun x hx => ?_, fun x hx => ?_⟩
        · rcases List.mem_cons.mp hx with rfl | hx2
          · exact hr.2.2.2.2.2 x hsmem
          · exact hr.2.2.2.2.1 x hx2
        · exact hr.2.2.2.2.2 x (List.mem_append_left _ hx)

/-- C10.  Community detection returns a partition of the node set: for a
snapshot whose node keys are distinct and whose edges stay inside the node
set, the concatenation of the returned communities is a permutation of the
node keys -- so every node appears in exactly one community -- and every
returned community is non-empty.  Community membership is by construction
breadth-first reachability along outgoing edges of weight above 0.5, the
definition of communityBFS. -/
theorem detectCommunities_partition (g : GraphState)
    (hnodup : (nodeIds g).Nodup)
    (hclosed : ∀ x ∈ allTargets g, x ∈ nodeIds g) :
    ((detectCommunities g).flatten).Perm (nodeIds g) ∧
    (∀ c ∈ detectCommunities g, c ≠ []) := by
  obtain ⟨h1, h2, h3, h4, h5, _h6⟩ := detectCommunities_foldl g hclosed (nodeIds g) [] []
    rfl List.nodup_nil (by simp) (by simp) (fun x hx => hx)
  have hdc : detectCommunities g = ((nodeIds g).foldl (communityStep g)
      (([] : List String), ([] : List (List String)))).2 := rfl
  constructor
  · rw [hdc, ← h1]
    exact (List.perm_ext_iff_of_nodup h2 hnodup).mpr
      (fun a => ⟨fun ha => h3 a ha, fun ha => h5 a ha⟩)
  · rw [hdc]
    exact h4

/-- Three-node graph used by the C10 witness: one edge above the 0.5
threshold, one below. -/
def c10Graph : GraphState :=
  ⟨[⟨"a", "IP", "10.0.0.1"⟩, ⟨"b", "IP", "10.0.0.2"⟩, ⟨"c", "IP", "10.0.0.3"⟩],
   [("a", [⟨"b", "communicates_with", 3 / 5⟩]),
    ("c", [⟨"a", "communicates_with", 3 / 10⟩])]⟩

/-- Witness for C10: on the three-node graph the communities partition the
node set. -/
theorem detectCommunities_partition_witness :
    ((detectCommunities c10Graph).flatten).Perm (nodeIds c10Graph) ∧
    (∀ c ∈ detectCommunities c10Graph, c ≠ []) :=
  detectCommunities_partition c10Graph (by decide) (by decide)
